import Mathlib

/-!
Verification development for the `Pricelist` repository (`project.py`).

The single source file defines a class `PriceAnalyzer` with a loader
`load_prices` (reads the csv files of a directory whose name contains
"price", resolves header synonyms, normalizes rows, appends canonical
records to `self.data`), a query method `find_text` (case-insensitive
substring match over names, results sorted ascending by the derived
unit price), an HTML exporter and an interactive loop.

The embedding below models strings as lists of characters and Python
floats as an inductive type `PyFloat` (finite rational | signed
infinity | NaN).  Finite float arithmetic is idealized as exact
rational arithmetic; the special values and Python's division and
`float()`-parsing behaviour on them (including `ZeroDivisionError` on a
zero divisor and acceptance of the strings "inf"/"infinity"/"nan") are
modelled faithfully, since several claims hinge on them.  The csv layer
is modelled at the `csv.DictReader` boundary: a file is its name, its
header fieldnames and its raw data rows; `DictReader` pads short rows
with the value `None` (`restval`), which the model represents as a
`none` cell.
-/

namespace Pricelist

/-- Strings of the modelled program: lists of characters. -/
abbrev Str := List Char

/-- Models Python `str.lower` character-wise for ASCII letters and the
Cyrillic block actually used by the program's data (U+0400–U+042F);
all other characters are left unchanged (true for digits, punctuation
and already-lowercase letters). -/
def pyLowerChar (c : Char) : Char :=
  if c.toNat ≥ 65 && c.toNat ≤ 90 then Char.ofNat (c.toNat + 32)
  else if c.toNat ≥ 0x400 && c.toNat ≤ 0x40F then Char.ofNat (c.toNat + 80)
  else if c.toNat ≥ 0x410 && c.toNat ≤ 0x42F then Char.ofNat (c.toNat + 32)
  else c

/-- Models Python `str.lower` on a whole string. -/
def pyLower (s : Str) : Str := s.map pyLowerChar

/-- Characters stripped by Python `str.strip()` (the ASCII whitespace
characters; the model does not use exotic Unicode whitespace). -/
def isPySpace (c : Char) : Bool :=
  c == ' ' || c == '\t' || c == '\n' || c == '\r' || c.toNat == 11 || c.toNat == 12

/-- Models Python `str.strip()`: remove leading and trailing whitespace. -/
def pyStrip (s : Str) : Str :=
  ((s.dropWhile isPySpace).reverse.dropWhile isPySpace).reverse

/-- Models the Python substring test `needle in haystack` on strings:
true iff `needle` occurs contiguously in `haystack` (the empty needle
occurs in every string). -/
def strContains (needle : Str) : Str → Bool
  | [] => needle.isEmpty
  | c :: rest => needle.isPrefixOf (c :: rest) || strContains needle rest

/-- Model of a Python float value: a finite value (idealized as an
exact rational), a signed infinity (`neg = true` for `-inf`), or NaN. -/
inductive PyFloat where
  | finite (q : ℚ)
  | inf (neg : Bool)
  | nan
  deriving DecidableEq, Repr

/-- Python's `<` on float values: NaN is incomparable to everything,
`-inf` is below and `+inf` above every finite value. -/
def pyLt : PyFloat → PyFloat → Bool
  | PyFloat.nan, _ => false
  | _, PyFloat.nan => false
  | PyFloat.finite a, PyFloat.finite b => decide (a < b)
  | PyFloat.finite _, PyFloat.inf s => !s
  | PyFloat.inf s, PyFloat.finite _ => s
  | PyFloat.inf s, PyFloat.inf t => s && !t

/-- Python exceptions relevant to `load_prices`. -/
inductive PyExc where
  | keyError
  | valueError
  | typeError
  | attributeError
  | zeroDivisionError
  deriving DecidableEq, Repr

/-- Exact division of rationals, written through `mkRat` (kernel
reducible):  `p / q = (p.num * q.den) / (p.den * q.num)` with the sign
moved into the numerator.  `ratDiv_eq_div` below checks it against
Mathlib's field division. -/
def ratDiv (p q : ℚ) : ℚ :=
  mkRat (if q.num < 0 then -(p.num * (q.den : ℤ)) else p.num * (q.den : ℤ))
    (p.den * q.num.natAbs)

/-- Models Python float division `a / b`.  Python raises
`ZeroDivisionError` whenever the divisor is (plus or minus) zero,
before any NaN propagation; otherwise NaN propagates, a finite value
divided by an infinity is zero, an infinity divided by a finite value
stays infinite, and `inf / inf` is NaN. -/
def pyDiv (a b : PyFloat) : Except PyExc PyFloat :=
  match b with
  | PyFloat.finite q =>
    if q.num = 0 then Except.error PyExc.zeroDivisionError
    else
      match a with
      | PyFloat.finite p => Except.ok (PyFloat.finite (ratDiv p q))
      | PyFloat.inf s => Except.ok (PyFloat.inf (xor s (decide (q.num < 0))))
      | PyFloat.nan => Except.ok PyFloat.nan
  | PyFloat.inf _ =>
    match a with
    | PyFloat.finite _ => Except.ok (PyFloat.finite 0)
    | PyFloat.inf _ => Except.ok PyFloat.nan
    | PyFloat.nan => Except.ok PyFloat.nan
  | PyFloat.nan =>
    match a with
    | _ => Except.ok PyFloat.nan

/-- Numeric value of an ASCII digit character. -/
def digitVal (c : Char) : ℕ := c.toNat - 48

/-- Value of a string of ASCII digits read in base 10. -/
def digitsToNat (ds : List Char) : ℕ :=
  ds.foldl (fun a c => 10 * a + digitVal c) 0

/-- Parses the optional exponent part of a float literal: an empty
remainder means exponent 0; otherwise `e`/`E`, an optional sign, and a
nonempty digit string consuming the whole remainder. -/
def parseExp : List Char → Option ℤ
  | [] => some 0
  | c :: r =>
    if c == 'e' || c == 'E' then
      let signAndRest : Bool × List Char :=
        match r with
        | '+' :: t => (false, t)
        | '-' :: t => (true, t)
        | t => (false, t)
      let ds := signAndRest.2.takeWhile Char.isDigit
      let rest := signAndRest.2.dropWhile Char.isDigit
      if ds.isEmpty || !rest.isEmpty then none
      else some (if signAndRest.1 then -(digitsToNat ds : ℤ) else (digitsToNat ds : ℤ))
    else none

/-- The rational `(num0 / den0) * 10 ^ e`, computed with a single
kernel-reducible `mkRat`. -/
def sciRat (num0 den0 : ℕ) (e : ℤ) : ℚ :=
  match e with
  | Int.ofNat k => mkRat (num0 * 10 ^ k) den0
  | Int.negSucc k => mkRat num0 (den0 * 10 ^ (k + 1))

/-- Parses an unsigned decimal float literal: digits, an optional
fractional part, an optional exponent; at least one digit must be
present in the integer-plus-fraction part.  The value is
`(intdigits.fracdigits) * 10 ^ exponent` as an exact rational. -/
def parseDecimal (l : List Char) : Option ℚ :=
  let ip := l.takeWhile Char.isDigit
  let r1 := l.dropWhile Char.isDigit
  match r1 with
  | '.' :: r =>
    let fp := r.takeWhile Char.isDigit
    let r2 := r.dropWhile Char.isDigit
    if ip.isEmpty && fp.isEmpty then none
    else
      match parseExp r2 with
      | some e =>
        some (sciRat (digitsToNat ip * 10 ^ fp.length + digitsToNat fp)
          (10 ^ fp.length) e)
      | none => none
  | _ =>
    if ip.isEmpty then none
    else
      match parseExp r1 with
      | some e => some (sciRat (digitsToNat ip) 1 e)
      | none => none

/-- Models Python `float(s)` on a string: strips whitespace, reads an
optional sign, accepts the special spellings "inf", "infinity" and
"nan" case-insensitively, otherwise parses a decimal literal.  Finite
literals are idealized as exact rationals (no binary rounding, no
overflow to infinity, no underscore separators); the inputs exercised
by the development stay within this fragment.  Returns `none` where
Python raises `ValueError`. -/
def pyFloatParse (s : Str) : Option PyFloat :=
  let t := pyStrip s
  let signAndBody : Bool × Str :=
    match t with
    | '+' :: r => (false, r)
    | '-' :: r => (true, r)
    | r => (false, r)
  let body := signAndBody.2
  let lowBody := pyLower body
  if lowBody = ("inf".toList) || lowBody = ("infinity".toList) then
    some (PyFloat.inf signAndBody.1)
  else if lowBody = ("nan".toList) then
    some PyFloat.nan
  else
    match parseDecimal body with
    | some q => some (PyFloat.finite (if signAndBody.1 then -q else q))
    | none => none

/-- Canonical record appended to `self.data`: the tuple
`(name, price, weight, file, price_per_kg)` of the source. -/
structure Record where
  name : Str
  price : PyFloat
  weight : PyFloat
  file : Str
  price_per_kg : PyFloat
  deriving DecidableEq, Repr

/-- Canonical fields required of every file. -/
inductive ColField where
  | name
  | price
  | weight
  deriving DecidableEq, Repr

/-- The fixed synonym table `column_mapping` of the source: lowercased
header alias to canonical field. -/
def column_mapping : List (Str × ColField) :=
  [("название".toList, ColField.name), ("продукт".toList, ColField.name),
   ("товар".toList, ColField.name), ("наименование".toList, ColField.name),
   ("цена".toList, ColField.price), ("розница".toList, ColField.price),
   ("фасовка".toList, ColField.weight), ("масса".toList, ColField.weight),
   ("вес".toList, ColField.weight)]

/-- First-match association lookup (the synonym table has distinct keys,
so first match and Python `dict.get` agree). -/
def assocLookup {α : Type} : List (Str × α) → Str → Option α
  | [], _ => none
  | (k, v) :: rest, q => if k = q then some v else assocLookup rest q

/-- Models `column_mapping.get(col.lower(), None)`: look the header up
case-insensitively in the synonym table. -/
def synLookup (h : Str) : Option ColField :=
  assocLookup column_mapping (pyLower h)

/-- The `columns` dict being built per file: for each canonical field,
the actual header string resolved for it (if any). -/
structure ColAcc where
  nameH : Option Str
  priceH : Option Str
  weightH : Option Str
  deriving DecidableEq, Repr

/-- The empty `columns` dict. -/
def emptyAcc : ColAcc := ⟨none, none, none⟩

/-- Record a resolved header for a canonical field
(`columns[mapped_col] = col`: a later assignment overwrites). -/
def setField (a : ColAcc) : ColField → Str → ColAcc
  | ColField.name, h => { a with nameH := some h }
  | ColField.price, h => { a with priceH := some h }
  | ColField.weight, h => { a with weightH := some h }

/-- Read the header resolved for a canonical field. -/
def getField (a : ColAcc) : ColField → Option Str
  | ColField.name => a.nameH
  | ColField.price => a.priceH
  | ColField.weight => a.weightH

/-- One step of the header-resolution loop
`for col in reader.fieldnames: ...`. -/
def resolveStep (acc : ColAcc) (h : Str) : ColAcc :=
  match synLookup h with
  | some fld => setField acc fld h
  | none => acc

/-- Models the header-resolution loop of `load_prices`: fold the
synonym lookup over the file's header list. -/
def resolveColumns (fieldnames : List Str) : ColAcc :=
  fieldnames.foldl resolveStep emptyAcc

/-- Models `[col for col in required_columns if col not in columns]`
with `required_columns = ['name', 'price', 'weight']`. -/
def missingFields (a : ColAcc) : List ColField :=
  [ColField.name, ColField.price, ColField.weight].filter
    (fun fld => (getField a fld).isNone)

/-- A source file at the `csv.DictReader` boundary: its filename, the
header fieldnames of its first row, and its raw data rows. -/
structure CSVFile where
  name : Str
  fieldnames : List Str
  rows : List (List Str)
  deriving DecidableEq, Repr

/-- Diagnostics logged by `load_prices`. -/
inductive LogEvent where
  | missingColumns (file : Str) (missing : List ColField)
  | rowError (file : Str) (e : PyExc)
  | fileError (file : Str) (e : PyExc)
  deriving DecidableEq, Repr

/-- Models the row dict built by `csv.DictReader`:
`dict(zip(fieldnames, row))`, with the trailing fieldnames of a short
row bound to `None` (`restval`); a `none` cell is Python's `None`.
Lookup takes the last binding, as a Python dict build does. -/
def rowDict (fieldnames : List Str) (cells : List Str) : List (Str × Option Str) :=
  fieldnames.zip (cells.map some ++ List.replicate (fieldnames.length - cells.length) none)

/-- Models `row[header]` followed by `.strip()`: `KeyError` if the
header is not a key of the row dict, `AttributeError` if the cell is
`None` (Python `None.strip()`), otherwise the stripped string. -/
def getCell (fieldnames : List Str) (cells : List Str) (h : Str) : Except PyExc Str :=
  match assocLookup (rowDict fieldnames cells).reverse h with
  | none => Except.error PyExc.keyError
  | some none => Except.error PyExc.attributeError
  | some (some s) => Except.ok (pyStrip s)

/-- Models `float(row[header].strip())`: `ValueError` when the stripped
cell is not a float literal. -/
def parseCell (fieldnames : List Str) (cells : List Str) (h : Str) : Except PyExc PyFloat :=
  match getCell fieldnames cells h with
  | Except.error e => Except.error e
  | Except.ok s =>
    match pyFloatParse s with
    | none => Except.error PyExc.valueError
    | some v => Except.ok v

/-- A complete column mapping: the header resolved for each of the
three canonical fields. -/
structure ColMap where
  nameH : Str
  priceH : Str
  weightH : Str
  deriving DecidableEq, Repr

/-- Models the body of the row loop of `load_prices`: read and strip
the name, parse price and weight, divide, and build the appended
tuple; the first raised exception aborts the row. -/
def normalizeRow (cm : ColMap) (fname : Str) (fieldnames : List Str)
    (cells : List Str) : Except PyExc Record :=
  match getCell fieldnames cells cm.nameH with
  | Except.error e => Except.error e
  | Except.ok nm =>
    match parseCell fieldnames cells cm.priceH with
    | Except.error e => Except.error e
    | Except.ok price =>
      match parseCell fieldnames cells cm.weightH with
      | Except.error e => Except.error e
      | Except.ok weight =>
        match pyDiv price weight with
        | Except.error e => Except.error e
        | Except.ok ppk => Except.ok ⟨nm, price, weight, fname, ppk⟩

/-- Exceptions caught by the inner
`except (KeyError, ValueError, TypeError)` of the row loop; any other
exception escapes to the per-file `except Exception` handler. -/
def isCaughtRowExc : PyExc → Bool
  | PyExc.keyError => true
  | PyExc.valueError => true
  | PyExc.typeError => true
  | _ => false

/-- Models the row loop `for row in reader`: a well-formed row appends
its record; a row raising a caught exception is logged and skipped; a
row raising an uncaught exception (`ZeroDivisionError`,
`AttributeError`) aborts the remaining rows of the file — the outer
per-file handler logs it and the loader moves on to the next file. -/
def processRows (cm : ColMap) (fname : Str) (fieldnames : List Str) :
    List (List Str) → List Record × List LogEvent
  | [] => ([], [])
  | cells :: rest =>
    match normalizeRow cm fname fieldnames cells with
    | Except.ok r =>
      let t := processRows cm fname fieldnames rest
      (r :: t.1, t.2)
    | Except.error e =>
      if isCaughtRowExc e then
        let t := processRows cm fname fieldnames rest
        (t.1, LogEvent.rowError fname e :: t.2)
      else ([], [LogEvent.fileError fname e])

/-- Models the per-file body of `load_prices`: resolve the columns; if
a required field is missing, warn and skip the file; otherwise process
its rows. -/
def processFile (f : CSVFile) : List Record × List LogEvent :=
  match getField (resolveColumns f.fieldnames) ColField.name,
      getField (resolveColumns f.fieldnames) ColField.price,
      getField (resolveColumns f.fieldnames) ColField.weight with
  | some cn, some cp, some cw => processRows ⟨cn, cp, cw⟩ f.name f.fieldnames f.rows
  | _, _, _ =>
    ([], [LogEvent.missingColumns f.name (missingFields (resolveColumns f.fieldnames))])

/-- Models the loop `for file in files`: records and log entries of
each selected file, concatenated in directory-listing order. -/
def load_files : List CSVFile → List Record × List LogEvent
  | [] => ([], [])
  | f :: rest =>
    let r := processFile f
    let t := load_files rest
    (r.1 ++ t.1, r.2 ++ t.2)

/-- Models `files = [f for f in os.listdir(...) if 'price' in f]`:
case-sensitive substring selection on the filename. -/
def candidateFile (f : CSVFile) : Bool :=
  strContains ("price".toList) f.name

/-- Models `load_prices` on a directory listing: select the candidate
files, then process them in order, accumulating `self.data` and the
log stream. -/
def load_prices (listing : List CSVFile) : List Record × List LogEvent :=
  load_files (listing.filter candidateFile)

/-- Models `os.listdir` having raised (directory unreadable): the
listing expression sits outside every `try` of `load_prices`, so an
`OSError` there propagates to the caller; with a readable directory
the loader always completes. -/
inductive OSErr where
  | notADirectory (path : Str)
  | fileNotFound (path : Str)
  deriving DecidableEq, Repr

/-- Models `load_prices` including the uncovered `os.listdir` call:
a listing failure propagates, a successful listing is loaded. -/
def load_pricesE (listing : Except OSErr (List CSVFile)) :
    Except OSErr (List Record × List LogEvent) :=
  match listing with
  | Except.error e => Except.error e
  | Except.ok l => Except.ok (load_prices l)

/-- Models the comprehension's predicate
`query.lower() in entry[0].lower()` of `find_text`. -/
def matchesQuery (q : Str) (r : Record) : Bool :=
  strContains (pyLower q) (pyLower r.name)

/-- Strict comparison on records used by
`sorted(results, key=lambda x: x[-1])`: Python's `<` on the last tuple
component, the derived unit price. -/
def recLt (a b : Record) : Bool :=
  pyLt a.price_per_kg b.price_per_kg

/-- Insert an element into a list, after every element strictly below
it and before the first element not strictly below it. -/
def insertL {α : Type} (lt : α → α → Bool) (a : α) : List α → List α
  | [] => [a]
  | b :: t => if lt b a then b :: insertL lt a t else a :: b :: t

/-- The canonical stable sort by a strict comparison.  Python's
`sorted` is guaranteed stable and ascending; on keys whose `<` is a
strict weak order (every key except NaN) this determines the output
uniquely, and this insertion sort computes it. -/
def stableSort {α : Type} (lt : α → α → Bool) : List α → List α
  | [] => []
  | a :: t => insertL lt a (stableSort lt t)

/-- Models `find_text`: filter the catalog by the case-insensitive
substring test, then sort ascending by the derived unit price
(stable). -/
def find_text (data : List Record) (q : Str) : List Record :=
  stableSort recLt (data.filter (matchesQuery q))

/-- The analyzer's state: the configured folder and the catalog
`self.data`. -/
structure PriceAnalyzer where
  folder_path : Str
  data : List Record
  deriving DecidableEq, Repr

/-- State-passing form of the method `find_text`: the method body only
reads `self.data` (a comprehension and a `sorted` call, no assignment
to `self`), so its translation returns the receiver unchanged together
with the result list. -/
def find_textM (self : PriceAnalyzer) (q : Str) : PriceAnalyzer × List Record :=
  (self, find_text self.data q)

/-! General lemmas about the stable insertion sort. -/

theorem insertL_perm {α : Type} (lt : α → α → Bool) (a : α) (l : List α) :
    (insertL lt a l).Perm (a :: l) := by
  induction l with
  | nil => exact List.Perm.refl _
  | cons b t ih =>
    unfold insertL
    split
    · exact (ih.cons b).trans (List.Perm.swap a b t)
    · exact List.Perm.refl _

theorem stableSort_perm {α : Type} (lt : α → α → Bool) (l : List α) :
    (stableSort lt l).Perm l := by
  induction l with
  | nil => exact List.Perm.refl _
  | cons a t ih =>
    exact (insertL_perm lt a (stableSort lt t)).trans (ih.cons a)

theorem mem_stableSort {α : Type} (lt : α → α → Bool) (l : List α) (x : α) :
    x ∈ stableSort lt l ↔ x ∈ l :=
  (stableSort_perm lt l).mem_iff

theorem pairwise_insertL {α : Type} (lt : α → α → Bool) (P : α → Prop)
    (hasym : ∀ x y, lt x y = true → lt y x = false)
    (htrans : ∀ x y z, P x → P y → P z →
      lt y x = false → lt z y = false → lt z x = false)
    (a : α) (l : List α) (hPa : P a) (hPl : ∀ x ∈ l, P x)
    (hl : List.Pairwise (fun x y => lt y x = false) l) :
    List.Pairwise (fun x y => lt y x = false) (insertL lt a l) := by
  induction l with
  | nil => simp [insertL]
  | cons b t ih =>
    rcases List.pairwise_cons.mp hl with ⟨hb, ht⟩
    unfold insertL
    split
    next h =>
      refine List.pairwise_cons.mpr ⟨?_, ?_⟩
      · intro y hy
        rcases List.mem_cons.mp ((insertL_perm lt a t).mem_iff.mp hy) with rfl | hyt
        · exact hasym b y h
        · exact hb y hyt
      · exact ih (fun x hx => hPl x (List.mem_cons_of_mem b hx)) ht
    next h =>
      have hba : lt b a = false := by
        cases hv : lt b a
        · rfl
        · exact absurd hv h
      refine List.pairwise_cons.mpr ⟨?_, hl⟩
      intro y hy
      rcases List.mem_cons.mp hy with rfl | hyt
      · exact hba
      · exact htrans a b y hPa (hPl b (List.mem_cons_self b t))
          (hPl y (List.mem_cons_of_mem b hyt)) hba (hb y hyt)

theorem pairwise_stableSort {α : Type} (lt : α → α → Bool) (P : α → Prop)
    (hasym : ∀ x y, lt x y = true → lt y x = false)
    (htrans : ∀ x y z, P x → P y → P z →
      lt y x = false → lt z y = false → lt z x = false)
    (l : List α) (hPl : ∀ x ∈ l, P x) :
    List.Pairwise (fun x y => lt y x = false) (stableSort lt l) := by
  induction l with
  | nil => simp [stableSort]
  | cons a t ih =>
    have hPt : ∀ x ∈ t, P x := fun x hx => hPl x (List.mem_cons_of_mem a hx)
    exact pairwise_insertL lt P hasym htrans a (stableSort lt t)
      (hPl a (List.mem_cons_self a t))
      (fun x hx => hPt x ((stableSort_perm lt t).mem_iff.mp hx))
      (ih hPt)

theorem filter_insertL_pos {α : Type} (lt : α → α → Bool) (p : α → Bool)
    (a : α) (l : List α) (hpa : p a = true)
    (hcls : ∀ b, p b = true → lt b a = false) :
    (insertL lt a l).filter p = a :: l.filter p := by
  induction l with
  | nil => simp [insertL, hpa]
  | cons b t ih =>
    unfold insertL
    split
    next h =>
      have hpb : p b = false := by
        cases hv : p b
        · rfl
        · rw [hcls b hv] at h
          exact absurd h (Bool.false_ne_true)
      simp [List.filter_cons, hpb, ih]
    next h =>
      simp [List.filter_cons, hpa]

theorem filter_insertL_neg {α : Type} (lt : α → α → Bool) (p : α → Bool)
    (a : α) (l : List α) (hpa : p a = false) :
    (insertL lt a l).filter p = l.filter p := by
  induction l with
  | nil => simp [insertL, hpa]
  | cons b t ih =>
    unfold insertL
    split
    next h => simp [List.filter_cons, ih]
    next h => simp [List.filter_cons, hpa]

theorem filter_stableSort {α : Type} (lt : α → α → Bool) (p : α → Bool)
    (l : List α) (hcls : ∀ x y, p x = true → p y = true → lt x y = false) :
    (stableSort lt l).filter p = l.filter p := by
  induction l with
  | nil => rfl
  | cons a t ih =>
    have hstep : stableSort lt (a :: t) = insertL lt a (stableSort lt t) := rfl
    cases hpa : p a
    · rw [hstep, filter_insertL_neg lt p a _ hpa, ih]
      simp [List.filter_cons, hpa]
    · rw [hstep, filter_insertL_pos lt p a _ hpa (fun b hb => hcls b a hb hpa), ih]
      simp [List.filter_cons, hpa]

/-! Order lemmas about the Python comparison `pyLt`. -/

theorem pyLt_irrefl (v : PyFloat) : pyLt v v = false := by
  cases v with
  | finite q => simp [pyLt]
  | inf s => cases s <;> rfl
  | nan => rfl

theorem pyLt_asymm (x y : PyFloat) (h : pyLt x y = true) : pyLt y x = false := by
  cases x <;> cases y <;> simp_all [pyLt] <;> exact le_of_lt h

theorem pyLt_negtrans (x y z : PyFloat) (hx : x ≠ PyFloat.nan)
    (hy : y ≠ PyFloat.nan) (hz : z ≠ PyFloat.nan)
    (h1 : pyLt y x = false) (h2 : pyLt z y = false) :
    pyLt z x = false := by
  cases x <;> cases y <;> cases z <;> simp_all [pyLt] <;> exact h1.trans h2

/-! Lemmas about the loader. -/

theorem load_files_append (l1 l2 : List CSVFile) :
    load_files (l1 ++ l2) =
      ((load_files l1).1 ++ (load_files l2).1,
       (load_files l1).2 ++ (load_files l2).2) := by
  induction l1 with
  | nil => simp [load_files]
  | cons f t ih => simp [load_files, ih]

theorem mem_load_files (fs : List CSVFile) (r : Record) :
    r ∈ (load_files fs).1 ↔ ∃ f ∈ fs, r ∈ (processFile f).1 := by
  induction fs with
  | nil => simp [load_files]
  | cons f t ih => simp [load_files, ih]

theorem mem_processRows (cm : ColMap) (fn : Str) (fns : List Str)
    (rows : List (List Str)) (r : Record)
    (h : r ∈ (processRows cm fn fns rows).1) :
    ∃ cells ∈ rows, normalizeRow cm fn fns cells = Except.ok r := by
  induction rows with
  | nil => simp [processRows] at h
  | cons cells rest ih =>
    cases hv : normalizeRow cm fn fns cells with
    | ok rec =>
      simp only [processRows, hv] at h
      rcases List.mem_cons.mp h with rfl | hrest
      · exact ⟨cells, List.mem_cons_self cells rest, hv⟩
      · rcases ih hrest with ⟨c, hc, hn⟩
        exact ⟨c, List.mem_cons_of_mem _ hc, hn⟩
    | error e =>
      cases hc : isCaughtRowExc e with
      | true =>
        simp only [processRows, hv, hc, if_true] at h
        rcases ih h with ⟨c, hcm, hn⟩
        exact ⟨c, List.mem_cons_of_mem _ hcm, hn⟩
      | false =>
        simp [processRows, hv, hc] at h

theorem mem_processFile (f : CSVFile) (r : Record) (h : r ∈ (processFile f).1) :
    ∃ cm cells, cells ∈ f.rows ∧
      normalizeRow cm f.name f.fieldnames cells = Except.ok r := by
  unfold processFile at h
  split at h
  next cn cp cw hn hp hw =>
    rcases mem_processRows _ _ _ _ _ h with ⟨c, hc, hr⟩
    exact ⟨⟨cn, cp, cw⟩, c, hc, hr⟩
  next => simp at h

theorem normalizeRow_ok_div (cm : ColMap) (fn : Str) (fns : List Str)
    (cells : List Str) (r : Record)
    (h : normalizeRow cm fn fns cells = Except.ok r) :
    pyDiv r.price r.weight = Except.ok r.price_per_kg := by
  unfold normalizeRow at h
  split at h
  · exact absurd h (by simp)
  next nm h1 =>
    split at h
    · exact absurd h (by simp)
    next price h2 =>
      split at h
      · exact absurd h (by simp)
      next weight h3 =>
        split at h
        · exact absurd h (by simp)
        next ppk h4 =>
          injection h with h
          subst h
          exact h4

theorem pyDiv_ok_ne_zero (a b v : PyFloat) (h : pyDiv a b = Except.ok v) :
    b ≠ PyFloat.finite 0 := by
  intro hb
  subst hb
  simp [pyDiv, Rat.num_ofNat] at h

theorem pyDiv_finite_finite (p q : ℚ) (v : PyFloat)
    (h : pyDiv (PyFloat.finite p) (PyFloat.finite q) = Except.ok v) :
    v = PyFloat.finite (ratDiv p q) := by
  simp only [pyDiv] at h
  split at h
  · exact absurd h (by simp)
  · injection h with h
    exact h.symm

/-! Lemmas about the column resolver. -/

theorem find?_eq_head?_filter {α : Type} (p : α → Bool) (l : List α) :
    l.find? p = (l.filter p).head? := by
  induction l with
  | nil => rfl
  | cons a t ih =>
    cases hpa : p a
    · rw [List.find?_cons_of_neg _ (by simp [hpa]), ih, List.filter_cons, hpa]
      simp
    · rw [List.find?_cons_of_pos _ hpa, List.filter_cons, hpa]
      simp

theorem getField_setField_same (a : ColAcc) (fld : ColField) (h : Str) :
    getField (setField a fld h) fld = some h := by
  cases fld <;> rfl

theorem getField_setField_ne (a : ColAcc) (fld fld' : ColField) (h : Str)
    (hne : fld ≠ fld') :
    getField (setField a fld h) fld' = getField a fld' := by
  cases fld <;> cases fld' <;> first | rfl | exact absurd rfl hne

theorem getField_foldl_resolve (hs : List Str) (acc : ColAcc) (fld : ColField) :
    getField (hs.foldl resolveStep acc) fld =
      ((hs.reverse.find? fun h => decide (synLookup h = some fld)).orElse
        (fun _ => getField acc fld)) := by
  induction hs generalizing acc with
  | nil => rfl
  | cons h t ih =>
    have hstep : (h :: t).foldl resolveStep acc = t.foldl resolveStep (resolveStep acc h) := rfl
    rw [hstep, ih, List.reverse_cons, List.find?_append]
    cases hf : t.reverse.find? (fun h' => decide (synLookup h' = some fld)) with
    | some x => rfl
    | none =>
      show getField (resolveStep acc h) fld =
        (([h].find? fun h' => decide (synLookup h' = some fld)).orElse
          fun _ => getField acc fld)
      cases hsyn : synLookup h with
      | none =>
        simp [List.find?_cons, resolveStep, hsyn]
      | some fld2 =>
        by_cases heq : fld2 = fld
        · subst heq
          simp [List.find?_cons, resolveStep, hsyn, getField_setField_same]
        · simp [List.find?_cons, resolveStep, hsyn, heq,
            getField_setField_ne acc fld2 fld h heq]

theorem getField_resolveColumns (hs : List Str) (fld : ColField) :
    getField (resolveColumns hs) fld =
      (hs.filter fun h => decide (synLookup h = some fld)).getLast? := by
  have hb : (hs.filter fun h => decide (synLookup h = some fld)).getLast? =
      hs.reverse.find? fun h => decide (synLookup h = some fld) := by
    rw [List.getLast?_eq_head?_reverse, ← List.filter_reverse, ← find?_eq_head?_filter]
  have hr : resolveColumns hs = hs.foldl resolveStep emptyAcc := rfl
  rw [hr, getField_foldl_resolve, hb]
  have hnone : getField emptyAcc fld = none := by cases fld <;> rfl
  cases hs.reverse.find? fun h => decide (synLookup h = some fld) <;> simp [hnone]

/-- Sanity of the kernel-reducible division: `ratDiv` agrees with
Mathlib's field division on ℚ. -/
theorem ratDiv_eq_div (p q : ℚ) : ratDiv p q = p / q := by
  rcases eq_or_ne q 0 with rfl | hq
  · simp [ratDiv, Rat.mkRat_eq_div]
  · have hY : (q.num : ℚ) ≠ 0 := Int.cast_ne_zero.mpr (Rat.num_ne_zero.mpr hq)
    have hD : ((p.den : ℕ) : ℚ) ≠ 0 := Nat.cast_ne_zero.mpr p.den_nz
    have hE : ((q.den : ℕ) : ℚ) ≠ 0 := Nat.cast_ne_zero.mpr q.den_nz
    have hp' : (p.num : ℚ) / (p.den : ℚ) = p := Rat.num_div_den p
    have hq' : (q.num : ℚ) / (q.den : ℚ) = q := Rat.num_div_den q
    unfold ratDiv
    rw [Rat.mkRat_eq_div]
    by_cases hneg : q.num < 0
    · rw [if_pos hneg]
      push_cast [Int.cast_natAbs]
      rw [abs_of_neg (show (q.num : ℚ) < 0 by exact_mod_cast hneg)]
      conv_rhs => rw [← hp', ← hq']
      field_simp
    · rw [if_neg hneg]
      push_cast [Int.cast_natAbs]
      rw [abs_of_nonneg (show (0 : ℚ) ≤ (q.num : ℚ) by exact_mod_cast not_lt.mp hneg)]
      conv_rhs => rw [← hp', ← hq']
      field_simp

/-- The empty needle is a substring of every string. -/
theorem strContains_nil (h : Str) : strContains [] h = true := by
  cases h <;> simp [strContains, List.isPrefixOf]

/-- Derived-field invariant of the catalog: every stored record's last
component was produced by dividing its own price by its own weight. -/
theorem record_invariant (listing : List CSVFile) (r : Record)
    (h : r ∈ (load_prices listing).1) :
    pyDiv r.price r.weight = Except.ok r.price_per_kg := by
  rcases (mem_load_files (listing.filter candidateFile) r).mp h with ⟨f, hf, hr⟩
  rcases mem_processFile f r hr with ⟨cm, cells, hc, hn⟩
  exact normalizeRow_ok_div cm f.name f.fieldnames cells r hn

/-! Loader decomposition lemmas. -/

theorem load_prices_append (l1 l2 : List CSVFile) :
    load_prices (l1 ++ l2) =
      ((load_prices l1).1 ++ (load_prices l2).1,
       (load_prices l1).2 ++ (load_prices l2).2) := by
  unfold load_prices
  rw [List.filter_append, load_files_append]

theorem load_prices_cons_pos (f : CSVFile) (l : List CSVFile)
    (hc : candidateFile f = true) :
    load_prices (f :: l) =
      ((processFile f).1 ++ (load_prices l).1,
       (processFile f).2 ++ (load_prices l).2) := by
  unfold load_prices
  simp [List.filter_cons, hc, load_files]

theorem load_prices_cons_neg (f : CSVFile) (l : List CSVFile)
    (hc : candidateFile f = false) :
    load_prices (f :: l) = load_prices l := by
  unfold load_prices
  simp [List.filter_cons, hc]

/-! Concrete inputs used by evaluations and witnesses. -/

/-- A fully well-formed price file exercising the alternative header
synonyms: one row (Масло, 200, 0.5). -/
def fileButter : CSVFile :=
  ⟨"my_price.csv".toList,
   ["Наименование".toList, "Розница".toList, "Фасовка".toList],
   [["Масло".toList, "200".toList, "0.5".toList]]⟩

/-- The record produced from `fileButter`'s single row. -/
def recButter : Record :=
  ⟨"Масло".toList, PyFloat.finite 200, PyFloat.finite (mkRat 1 2),
   "my_price.csv".toList, PyFloat.finite 400⟩

/-- A price file whose second row has zero weight and whose third row
is again well formed. -/
def fileZeroW : CSVFile :=
  ⟨"price_z.csv".toList,
   ["Название".toList, "Цена".toList, "Вес".toList],
   [["Молоко".toList, "100".toList, "1".toList],
    ["Сыр".toList, "50".toList, "0".toList],
    ["Хлеб".toList, "30".toList, "1".toList]]⟩

/-- The record produced from `fileZeroW`'s first row. -/
def recMoloko : Record :=
  ⟨"Молоко".toList, PyFloat.finite 100, PyFloat.finite 1,
   "price_z.csv".toList, PyFloat.finite 100⟩

/-- A price file whose second row is short (its weight cell is
missing, so `DictReader` binds it to `None`) and whose third row is
again well formed. -/
def fileShortRow : CSVFile :=
  ⟨"price_s.csv".toList,
   ["Название".toList, "Цена".toList, "Вес".toList],
   [["Каша".toList, "10".toList, "2".toList],
    ["Рис".toList, "5".toList],
    ["Чай".toList, "8".toList, "1".toList]]⟩

/-- The record produced from `fileShortRow`'s first row. -/
def recKasha : Record :=
  ⟨"Каша".toList, PyFloat.finite 10, PyFloat.finite 2,
   "price_s.csv".toList, PyFloat.finite 5⟩

/-- A price file whose second row has the weight cell "nan", which
Python's `float()` accepts. -/
def fileNanW : CSVFile :=
  ⟨"price_n.csv".toList,
   ["Товар".toList, "Цена".toList, "Масса".toList],
   [["Апельсин".toList, "2".toList, "1".toList],
    ["Банан".toList, "1".toList, "nan".toList],
    ["Вишня".toList, "1".toList, "1".toList]]⟩

/-- A price file with no header mapping to the weight field. -/
def fileNoWeight : CSVFile :=
  ⟨"price_w.csv".toList,
   ["Название".toList, "Цена".toList],
   [["Молоко".toList, "100".toList]]⟩

/-- A well-formed file whose name contains "Price" but not "price". -/
def filePrice1 : CSVFile :=
  ⟨"Price1.csv".toList,
   ["Название".toList, "Цена".toList, "Вес".toList],
   [["Молоко".toList, "60".toList, "1".toList]]⟩

/-! Claim theorems. -/

/-- Claim C1 (code bug, demonstration): the claim says a row failing
normalization — including a zero-weight row or a short row — is
skipped with processing continuing at the next row of the same file.
In the code the inner handler catches only `KeyError`, `ValueError`
and `TypeError`; a zero-weight row raises `ZeroDivisionError` and a
short row raises `AttributeError` (`None.strip()`), both escaping to
the per-file handler, which drops the remaining rows of the file.
Here the well-formed third rows (Хлеб, Чай) of the first two files
are lost, while the load still continues with the next file. -/
theorem c1_uncaught_row_errors_abort_file :
    load_prices [fileZeroW, fileShortRow, fileButter] =
      ([recMoloko, recKasha, recButter],
       [LogEvent.fileError ("price_z.csv".toList) PyExc.zeroDivisionError,
        LogEvent.fileError ("price_s.csv".toList) PyExc.attributeError]) := by
  decide

/-- Claim C2: every record stored in the catalog by `load_prices`
carries as its derived `price_per_kg` exactly the result of Python's
division of its own stored price by its own stored weight. -/
theorem c2_unit_price_from_same_row (listing : List CSVFile) (r : Record)
    (h : r ∈ (load_prices listing).1) :
    pyDiv r.price r.weight = Except.ok r.price_per_kg :=
  record_invariant listing r h

/-- Witness for C2 at a concrete input. -/
theorem c2_witness :
    recButter ∈ (load_prices [fileButter]).1 ∧
      pyDiv recButter.price recButter.weight = Except.ok recButter.price_per_kg :=
  ⟨by decide, c2_unit_price_from_same_row [fileButter] recButter (by decide)⟩

/-- Claim C3: `find_text` returns exactly the records whose lowercased
name contains the lowercased query as a substring, with the lowering
Unicode-aware; in particular the Cyrillic queries "МОЛОК" and "молок"
give identical results on every catalog. -/
theorem c3_find_text_membership :
    (∀ (d : List Record) (q : Str) (r : Record),
      r ∈ find_text d q ↔
        r ∈ d ∧ strContains (pyLower q) (pyLower r.name) = true)
    ∧ ∀ d : List Record,
        find_text d ("МОЛОК".toList) = find_text d ("молок".toList) := by
  constructor
  · intro d q r
    unfold find_text
    rw [mem_stableSort]
    simp [List.mem_filter, matchesQuery]
  · intro d
    unfold find_text
    have hq : pyLower ("МОЛОК".toList) = pyLower ("молок".toList) := by decide
    have hm : matchesQuery ("МОЛОК".toList) = matchesQuery ("молок".toList) := by
      funext r
      unfold matchesQuery
      rw [hq]
    rw [hm]

/-- Claim C4 counterexample: on a reachable catalog containing a NaN
unit price (weight cell "nan"), the sequence returned by `find_text`
for the empty query is not sorted ascending by unit price: its keys
come out as (2, NaN, 1). -/
theorem c4_counterexample :
    ¬ List.Pairwise
        (fun a b : Record => pyLt b.price_per_kg a.price_per_kg = false)
        (find_text (load_prices [fileNanW]).1 []) := by
  decide

/-- Claim C4 (amended): provided no catalog record has a NaN unit
price, `find_text` returns the matching records sorted ascending by
unit price with ties kept in catalog order (for each key value, the
records with that key appear exactly as in the filtered catalog); the
empty query returns every record and an unmatched query returns the
empty sequence. -/
theorem c4_sorted_stable (d : List Record) (q : Str)
    (hnn : ∀ r ∈ d, r.price_per_kg ≠ PyFloat.nan) :
    List.Pairwise
      (fun a b : Record => pyLt b.price_per_kg a.price_per_kg = false)
      (find_text d q)
    ∧ (find_text d q).Perm (d.filter (matchesQuery q))
    ∧ (∀ k : PyFloat,
        (find_text d q).filter (fun r => decide (r.price_per_kg = k)) =
          (d.filter (matchesQuery q)).filter (fun r => decide (r.price_per_kg = k)))
    ∧ (q = [] → (find_text d q).Perm d)
    ∧ ((∀ r ∈ d, matchesQuery q r = false) → find_text d q = []) := by
  refine ⟨?_, stableSort_perm recLt _, ?_, ?_, ?_⟩
  · exact pairwise_stableSort recLt
      (fun r => r.price_per_kg ≠ PyFloat.nan)
      (fun x y hxy => pyLt_asymm _ _ hxy)
      (fun x y z px py pz h1 h2 =>
        pyLt_negtrans x.price_per_kg y.price_per_kg z.price_per_kg px py pz h1 h2)
      (d.filter (matchesQuery q))
      (fun r hr => hnn r (List.mem_of_mem_filter hr))
  · intro k
    refine filter_stableSort recLt _ _ ?_
    intro x y hx hy
    have hx' : x.price_per_kg = k := of_decide_eq_true hx
    have hy' : y.price_per_kg = k := of_decide_eq_true hy
    unfold recLt
    rw [hx', hy']
    exact pyLt_irrefl k
  · intro hq
    subst hq
    have hfil : d.filter (matchesQuery []) = d := by
      refine List.filter_eq_self.mpr ?_
      intro a _
      unfold matchesQuery
      exact strContains_nil _
    unfold find_text
    rw [hfil]
    exact stableSort_perm recLt d
  · intro hnone
    have hfil : d.filter (matchesQuery q) = [] :=
      List.filter_eq_nil_iff.mpr (fun a ha => by simp [hnone a ha])
    unfold find_text
    rw [hfil]
    rfl

/-- Witness for C4 at a concrete input: a NaN-free catalog of three
records with unit prices (100, 5, 400) is returned sorted. -/
theorem c4_witness :
    (∀ r ∈ (load_prices [fileZeroW, fileShortRow, fileButter]).1,
      r.price_per_kg ≠ PyFloat.nan)
    ∧ List.Pairwise
        (fun a b : Record => pyLt b.price_per_kg a.price_per_kg = false)
        (find_text (load_prices [fileZeroW, fileShortRow, fileButter]).1 []) :=
  ⟨by decide,
   (c4_sorted_stable (load_prices [fileZeroW, fileShortRow, fileButter]).1 []
      (by decide)).1⟩

/-- Claim C5 counterexample: a weight cell "nan" parses successfully
(`float("nan")`), so the loader stores a record whose unit price is
NaN, refuting the claim that no stored record has an infinite or NaN
unit price. -/
theorem c5_counterexample :
    ∃ r ∈ (load_prices [fileNanW]).1, r.price_per_kg = PyFloat.nan := by
  decide

/-- Claim C5 (amended): no record with zero weight is ever appended to
the catalog, and whenever a stored record's price and weight are both
finite its unit price is the finite exact quotient — infinite or NaN
unit prices can arise only from "inf"/"nan" cells, which Python's
`float()` accepts. -/
theorem c5_no_zero_weight (listing : List CSVFile) (r : Record)
    (h : r ∈ (load_prices listing).1) :
    r.weight ≠ PyFloat.finite 0
    ∧ ∀ p q : ℚ, r.price = PyFloat.finite p → r.weight = PyFloat.finite q →
        r.price_per_kg = PyFloat.finite (ratDiv p q) := by
  have hdiv := record_invariant listing r h
  refine ⟨pyDiv_ok_ne_zero _ _ _ hdiv, ?_⟩
  intro p q hp hq
  rw [hp, hq] at hdiv
  exact pyDiv_finite_finite p q r.price_per_kg hdiv

/-- Witness for C5 at a concrete input. -/
theorem c5_witness :
    recButter ∈ (load_prices [fileButter]).1 ∧
      recButter.weight ≠ PyFloat.finite 0 :=
  ⟨by decide, (c5_no_zero_weight [fileButter] recButter (by decide)).1⟩

/-- Claim C6: a file whose resolved header mapping lacks a canonical
field contributes zero records, the loader continues with the
remaining files, and (when the file was selected at all) a warning
naming the missing canonical fields is logged. -/
theorem c6_missing_columns_skip_file (pre post : List CSVFile) (f : CSVFile)
    (h : missingFields (resolveColumns f.fieldnames) ≠ []) :
    (load_prices (pre ++ f :: post)).1 =
      (load_prices pre).1 ++ (load_prices post).1
    ∧ (candidateFile f = true →
        LogEvent.missingColumns f.name (missingFields (resolveColumns f.fieldnames))
          ∈ (load_prices (pre ++ f :: post)).2) := by
  have hpf : processFile f =
      ([], [LogEvent.missingColumns f.name
        (missingFields (resolveColumns f.fieldnames))]) := by
    unfold processFile
    split
    next cn cp cw hn hp hw =>
      exfalso
      apply h
      simp [missingFields, hn, hp, hw]
    next => rfl
  rw [load_prices_append]
  cases hc : candidateFile f with
  | false =>
    rw [load_prices_cons_neg f post hc]
    exact ⟨rfl, fun hcontra => by simp [hc] at hcontra⟩
  | true =>
    rw [load_prices_cons_pos f post hc, hpf]
    constructor
    · simp
    · intro _
      simp

/-- Witness for C6 at a concrete input: a file with no weight column
is skipped while the following file still loads. -/
theorem c6_witness :
    missingFields (resolveColumns fileNoWeight.fieldnames) ≠ [] ∧
      (load_prices ([] ++ fileNoWeight :: [fileButter])).1 =
        (load_prices []).1 ++ (load_prices [fileButter]).1 :=
  ⟨by decide,
   (c6_missing_columns_skip_file [] [fileButter] fileNoWeight (by decide)).1⟩

/-- Claim C7: column resolution looks each header up in the fixed
synonym table after lowercasing it (case-insensitive), ignores headers
with no match, and resolves each canonical field to the last header of
the file's header list that maps to it (last-match-wins). -/
theorem c7_last_synonym_wins (headers : List Str) (fld : ColField) :
    getField (resolveColumns headers) fld =
      (headers.filter fun h =>
        decide (assocLookup column_mapping (pyLower h) = some fld)).getLast? :=
  getField_resolveColumns headers fld

/-- Claim C8: the candidate source files are exactly the listing
entries whose filename contains the substring "price" case-sensitively;
only those are processed; a file named "Price1.csv" with well-formed
content is ignored entirely. -/
theorem c8_candidate_selection :
    (∀ (listing : List CSVFile) (f : CSVFile),
      f ∈ listing.filter candidateFile ↔
        f ∈ listing ∧ strContains ("price".toList) f.name = true)
    ∧ (∀ listing : List CSVFile,
        load_prices listing = load_files (listing.filter candidateFile))
    ∧ processFile filePrice1 ≠ ([], [])
    ∧ load_prices [filePrice1] = ([], []) := by
  refine ⟨?_, fun _ => rfl, by decide, by decide⟩
  intro listing f
  simp [List.mem_filter, candidateFile]

/-- Claim C9: querying leaves the catalog unchanged — the
state-passing form of `find_text` returns the analyzer state as it
was, and repeating the same query on the returned state gives the same
result. -/
theorem c9_find_text_preserves_state (s : PriceAnalyzer) (q : Str) :
    (find_textM s q).1 = s ∧
      (find_textM ((find_textM s q).1) q).2 = (find_textM s q).2 :=
  ⟨rfl, rfl⟩

/-- Claim C10: a failure of the directory listing itself propagates to
the caller of `load_prices` (the listing expression sits outside every
`try`), while a successful listing always completes the load. -/
theorem c10_listdir_failure_propagates :
    (∀ e : OSErr, load_pricesE (Except.error e) = Except.error e)
    ∧ (∀ listing : List CSVFile,
        load_pricesE (Except.ok listing) = Except.ok (load_prices listing)) :=
  ⟨fun _ => rfl, fun _ => rfl⟩

end Pricelist
